import Mathlib

/-!
Shallow embedding of `lexicon/providers/valuedomain.py` (the Value Domain
DNS provider).  The vendor stores a whole zone as one multi-line text blob
of whitespace-separated `type name content` triplets; the provider parses
that blob, computes a content-derived 7-hex-char identifier per record,
and performs find/create/update/delete over the in-memory triplet list.

Modelling conventions:
* Python strings are Lean `String`s; byte-level operations (hashing) go
  through an explicit UTF-8 encoder producing `List Nat` bytes.
* Python truthiness of an optional string argument (`if rtype:` ...) is
  modelled by `truthy : Option String → Bool` (absent or empty = falsy).
* `hashlib.sha256` is modelled functionally: the hash object is the list
  of bytes fed so far; `update` appends; `hexdigest` pads, compresses and
  hex-encodes (full SHA-256, FIPS 180-4, over `Nat` mod 2^32).
* The framework base class (`lexicon.providers.base`) is outside the
  repository sources; its generic relative/full name conversion is an
  abstract parameter `base : String → String` threaded through the
  operations.  The wrappers `_relative_name` / `_full_name` defined in
  the provider source ARE modelled (`relativeName`, `fullName`).
-/

namespace ValueDomain

/-- Python `str.lower()` restricted to the basic latin range, as used on
DNS record types; `Char.toLower` implements exactly Python's ASCII case
mapping. -/
def strLower (s : String) : String := String.mk (s.data.map Char.toLower)

/-- Python `str.upper()` on the basic latin range (used by `_list_records`
to expose the record type upper-cased). -/
def strUpper (s : String) : String := String.mk (s.data.map Char.toUpper)

/-- Truthiness of an optional string argument in Python: `None` and the
empty string are falsy, every other string is truthy. -/
def truthy : Option String → Bool
  | none => false
  | some s => s != ""

/-- Python `s.endswith(suf)`. -/
def pyEndsWith (s suf : String) : Bool := List.isSuffixOf suf.data s.data

/-- The characters matched by Python's regex class `\s` on `str`
(ASCII whitespace plus the Unicode whitespace code points). -/
def wsChars : List Char :=
  [' ', '\t', '\n', '\r', '\x0b', '\x0c',
   '\x1c', '\x1d', '\x1e', '\x1f', '\x85', '\xa0', ' ',
   ' ', ' ', ' ', ' ', ' ', ' ', ' ',
   ' ', ' ', ' ', ' ', ' ', ' ', ' ',
   ' ', '　']

/-- Whitespace test for the `re.split` model. -/
def isWSChar (c : Char) : Bool := wsChars.contains c

/-- The line boundaries recognised by Python `str.splitlines`
(`\r\n` is additionally treated as a single boundary). -/
def breakChars : List Char :=
  ['\n', '\r', '\x0b', '\x0c', '\x1c', '\x1d', '\x1e', '\x85',
   ' ', ' ']

/-- Line-break test for the `splitlines` model. -/
def isBreakChar (c : Char) : Bool := breakChars.contains c

/-- Python `str.splitlines()` on the character list of a string: splits at
every line boundary, treats a carriage return followed by a newline as one
boundary, and produces no final empty line for a trailing boundary. -/
def pySplitlines : List Char → List (List Char)
  | [] => []
  | c :: cs =>
    if isBreakChar c then
      match c, cs with
      | '\r', '\n' :: rest => [] :: pySplitlines rest
      | _, rest => [] :: pySplitlines rest
    else
      match pySplitlines cs with
      | [] => [[c]]
      | l :: ls => (c :: l) :: ls

/-- Drop the longest whitespace run at the head of the list (the rest of a
maximal whitespace-regex match). -/
def dropWS : List Char → List Char
  | [] => []
  | c :: cs => if isWSChar c then dropWS cs else c :: cs

/-- Scan for the first maximal whitespace run: returns the (possibly
empty) segment before it and, if a run was found, the remainder after the
whole run. -/
def breakWS : List Char → List Char × Option (List Char)
  | [] => ([], none)
  | c :: cs =>
    if isWSChar c then ([], some (dropWS cs))
    else (c :: (breakWS cs).1, (breakWS cs).2)

/-- Python `re.split` with the whitespace pattern and no split cap, via
structural fuel (any fuel above the character count is enough). -/
def splitWSAllFuel : Nat → List Char → List (List Char)
  | 0, cs => [cs]
  | fuel + 1, cs =>
    match breakWS cs with
    | (a, none) => [a]
    | (a, some r) => a :: splitWSAllFuel fuel r

/-- Python `re.split` with the whitespace pattern and no split cap:
all maximal whitespace runs become separators.  Used only to state how
many fields a line has. -/
def splitWSAll (cs : List Char) : List (List Char) :=
  splitWSAllFuel (cs.length + 1) cs

/-- Python `re.split(pattern, line, 2)` for the whitespace pattern: split
at the first two maximal whitespace runs; the remainder after the second
run is kept verbatim. -/
def splitWS2 (cs : List Char) : List (List Char) :=
  match breakWS cs with
  | (a, none) => [a]
  | (a, some r) =>
    match breakWS r with
    | (b, none) => [a, b]
    | (b, some r2) => [a, b, r2]

/-- Python `sep.join(xs)`. -/
def strJoin (sep : String) : List String → String
  | [] => ""
  | [x] => x
  | x :: xs => x ++ sep ++ strJoin sep xs

/-! ### SHA-256 (FIPS 180-4), the hash behind `hashlib.sha256`

Bytes and 32-bit words are `Nat`s kept below `2^8` / `2^32` by explicit
reduction where overflow matters. -/

/-- UTF-8 encoding of one Unicode scalar value. -/
def utf8EncodeScalar (n : Nat) : List Nat :=
  if n < 128 then [n]
  else if n < 2048 then [192 + n / 64, 128 + n % 64]
  else if n < 65536 then
    [224 + n / 4096, 128 + (n / 64) % 64, 128 + n % 64]
  else
    [240 + n / 262144, 128 + (n / 4096) % 64, 128 + (n / 64) % 64,
     128 + n % 64]

/-- Python `s.encode('utf-8')` as a list of byte values. -/
def utf8 (s : String) : List Nat :=
  s.data.flatMap (fun c => utf8EncodeScalar c.toNat)

/-- Word size modulus for SHA-256 arithmetic. -/
def pow32 : Nat := 4294967296

/-- Addition modulo `2^32`. -/
def add32 (a b : Nat) : Nat := (a + b) % pow32

/-- Right rotation of a 32-bit word by `n` places. -/
def rotr32 (n x : Nat) : Nat :=
  Nat.lor (x >>> n) ((x <<< (32 - n)) % pow32)

/-- SHA-256 big sigma 0. -/
def bsig0 (x : Nat) : Nat := Nat.xor (Nat.xor (rotr32 2 x) (rotr32 13 x)) (rotr32 22 x)

/-- SHA-256 big sigma 1. -/
def bsig1 (x : Nat) : Nat := Nat.xor (Nat.xor (rotr32 6 x) (rotr32 11 x)) (rotr32 25 x)

/-- SHA-256 small sigma 0. -/
def ssig0 (x : Nat) : Nat := Nat.xor (Nat.xor (rotr32 7 x) (rotr32 18 x)) (x >>> 3)

/-- SHA-256 small sigma 1. -/
def ssig1 (x : Nat) : Nat := Nat.xor (Nat.xor (rotr32 17 x) (rotr32 19 x)) (x >>> 10)

/-- SHA-256 choice function. -/
def chf (x y z : Nat) : Nat :=
  Nat.xor (Nat.land x y) (Nat.land (Nat.xor x 4294967295) z)

/-- SHA-256 majority function. -/
def majf (x y z : Nat) : Nat :=
  Nat.xor (Nat.xor (Nat.land x y) (Nat.land x z)) (Nat.land y z)

/-- The 64 SHA-256 round constants (decimal rendering of the FIPS 180-4
table). -/
def sha256K : List Nat :=
  [1116352408, 1899447441, 3049323471, 3921009573,
   961987163, 1508970993, 2453635748, 2870763221,
   3624381080, 310598401, 607225278, 1426881987,
   1925078388, 2162078206, 2614888103, 3248222580,
   3835390401, 4022224774, 264347078, 604807628,
   770255983, 1249150122, 1555081692, 1996064986,
   2554220882, 2821834349, 2952996808, 3210313671,
   3336571891, 3584528711, 113926993, 338241895,
   666307205, 773529912, 1294757372, 1396182291,
   1695183700, 1986661051, 2177026350, 2456956037,
   2730485921, 2820302411, 3259730800, 3345764771,
   3516065817, 3600352804, 4094571909, 275423344,
   430227734, 506948616, 659060556, 883997877,
   958139571, 1322822218, 1537002063, 1747873779,
   1955562222, 2024104815, 2227730452, 2361852424,
   2428436474, 2756734187, 3204031479, 3329325298]

/-- The SHA-256 initial hash value (decimal rendering of the FIPS 180-4
words). -/
def sha256H0 : List Nat :=
  [1779033703, 3144134277, 1013904242, 2773480762,
   1359893119, 2600822924, 528734635, 1541459225]

/-- Big-endian bytes of `n`, `k` bytes wide. -/
def beBytes (k n : Nat) : List Nat :=
  match k with
  | 0 => []
  | k + 1 => beBytes k (n / 256) ++ [n % 256]

/-- SHA-256 message padding: append the `0x80` byte, zero bytes up to 56
modulo 64, then the 8-byte big-endian bit length. -/
def padMsg (msg : List Nat) : List Nat :=
  let l := msg.length
  let zeros := (119 - l % 64) % 64
  msg ++ [128] ++ List.replicate zeros 0 ++ beBytes 8 (l * 8)

/-- Group bytes into big-endian 32-bit words. -/
def bytesToWords : List Nat → List Nat
  | a :: b :: c :: d :: rest =>
    (((a * 256 + b) * 256 + c) * 256 + d) :: bytesToWords rest
  | _ => []

/-- One new word of the SHA-256 message schedule, computed from the tail
of the words produced so far. -/
def nextScheduleWord (w : List Nat) : Nat :=
  let l := w.length
  add32 (add32 (ssig1 (w.getD (l - 2) 0)) (w.getD (l - 7) 0))
        (add32 (ssig0 (w.getD (l - 15) 0)) (w.getD (l - 16) 0))

/-- Extend the 16-word block to the full 64-word schedule. -/
def extendSchedule (w : List Nat) : Nat → List Nat
  | 0 => w
  | n + 1 => extendSchedule (w ++ [nextScheduleWord w]) n

/-- The eight 32-bit working variables of the compression loop. -/
structure Hash8 where
  a : Nat
  b : Nat
  c : Nat
  d : Nat
  e : Nat
  f : Nat
  g : Nat
  h : Nat

/-- One round of the SHA-256 compression function. -/
def sha256Round (s : Hash8) (kw : Nat × Nat) : Hash8 :=
  let t1 := add32 s.h (add32 (bsig1 s.e) (add32 (chf s.e s.f s.g) (add32 kw.1 kw.2)))
  let t2 := add32 (bsig0 s.a) (majf s.a s.b s.c)
  ⟨add32 t1 t2, s.a, s.b, s.c, add32 s.d t1, s.e, s.f, s.g⟩

/-- Compress one 64-byte block into the running hash (eight words). -/
def sha256Compress (hs : List Nat) (block : List Nat) : List Nat :=
  let w := extendSchedule (bytesToWords block) 48
  let s0 : Hash8 :=
    ⟨hs.getD 0 0, hs.getD 1 0, hs.getD 2 0, hs.getD 3 0,
     hs.getD 4 0, hs.getD 5 0, hs.getD 6 0, hs.getD 7 0⟩
  let s := (sha256K.zip w).foldl sha256Round s0
  [add32 (hs.getD 0 0) s.a, add32 (hs.getD 1 0) s.b,
   add32 (hs.getD 2 0) s.c, add32 (hs.getD 3 0) s.d,
   add32 (hs.getD 4 0) s.e, add32 (hs.getD 5 0) s.f,
   add32 (hs.getD 6 0) s.g, add32 (hs.getD 7 0) s.h]

/-- Fold the compression function over the padded message, 64 bytes at a
time.  The first argument is structural-recursion fuel; one unit per
64-byte block always suffices, so callers pass the byte count. -/
def sha256Blocks : Nat → List Nat → List Nat → List Nat
  | 0, hs, _ => hs
  | _, hs, [] => hs
  | fuel + 1, hs, b :: rest =>
    sha256Blocks fuel (sha256Compress hs ((b :: rest).take 64)) ((b :: rest).drop 64)

/-- SHA-256 of a byte list, as eight 32-bit words. -/
def sha256Words (msg : List Nat) : List Nat :=
  sha256Blocks (padMsg msg).length sha256H0 (padMsg msg)

/-- One lowercase hexadecimal digit. -/
def hexDigit (n : Nat) : Char :=
  if n < 10 then Char.ofNat (48 + n) else Char.ofNat (87 + n)

/-- Lowercase hexadecimal rendering of one 32-bit word (8 digits). -/
def wordToHex (w : Nat) : List Char :=
  [hexDigit ((w / 268435456) % 16), hexDigit ((w / 16777216) % 16),
   hexDigit ((w / 1048576) % 16), hexDigit ((w / 65536) % 16),
   hexDigit ((w / 4096) % 16), hexDigit ((w / 256) % 16),
   hexDigit ((w / 16) % 16), hexDigit (w % 16)]

/-- A `hashlib.sha256` object, modelled as the byte list fed so far. -/
def Sha256Ctx : Type := List Nat

/-- A freshly constructed `hashlib.sha256()` object. -/
def sha256Init : Sha256Ctx := ([] : List Nat)

/-- Python `sha256.update(bs)`: feeds further bytes to the hash object. -/
def sha256Update (ctx : Sha256Ctx) (bs : List Nat) : Sha256Ctx :=
  List.append ctx bs

/-- Python `sha256.hexdigest()`: the 64-char lowercase hex digest of all
bytes fed so far. -/
def hexdigest (ctx : Sha256Ctx) : String :=
  String.mk ((sha256Words ctx).flatMap wordToHex)

/-- Python string slicing `s[0:n]`. -/
def strTake (s : String) (n : Nat) : String := String.mk (s.data.take n)

/-! ### The provider's record model and operations -/

/-- A record triplet as parsed from one zone line: type, name, content. -/
abbrev DnsRecord := String × String × String

/-- `_identifier`: feeds the strings `type=` + lower-cased type, `name=` +
name and `data=` + content to a single SHA-256 object and keeps the first
7 characters of the hex digest. -/
def identifier (record : DnsRecord) : String :=
  let h1 := sha256Update sha256Init (utf8 ("type=" ++ strLower record.1))
  let h2 := sha256Update h1 (utf8 ("name=" ++ record.2.1))
  let h3 := sha256Update h2 (utf8 ("data=" ++ record.2.2))
  strTake (hexdigest h3) 7

/-- `_relative_name` (provider wrapper): delegate to the framework's
generic relative-name conversion `base`; an empty result (the zone apex)
becomes the literal at-sign. -/
def relativeName (base : String → String) (recordName : String) : String :=
  let name := base recordName
  if name == "" then "@" else name

/-- `_full_name` (provider wrapper): the literal at-sign is replaced by
the zone domain before delegating to the framework's generic
full-name conversion `base`. -/
def fullName (base : String → String) (domain recordName : String) : String :=
  base (if recordName == "@" then domain else recordName)

/-- `_bind_format_target`: append a trailing dot to CNAME targets; the
comparison against the literal "CNAME" is case-sensitive.  `rtype` is
optional because `_delete_record` may call this with a `None` type. -/
def bindFormatTarget (rtype : Option String) (target : String) : String :=
  if rtype == some "CNAME" && !(pyEndsWith target ".") then target ++ "." else target

/-- The loop body of `_find_resource_record_set`, carrying the running
index: a truthy identifier that matches the record's computed identifier
returns immediately; otherwise each truthy remaining field must match
(type case-insensitively), a mismatch skips to the next record, and a
record that survives every check is returned. -/
def findAux (idf rt nm ct : Option String) : List DnsRecord → Nat → Int
  | [], _ => -1
  | r :: rest, i =>
    if truthy idf && (identifier r == idf.getD "") then (i : Int)
    else if truthy rt && !(strLower r.1 == strLower (rt.getD "")) then
      findAux idf rt nm ct rest (i + 1)
    else if truthy nm && !(r.2.1 == nm.getD "") then
      findAux idf rt nm ct rest (i + 1)
    else if truthy ct && !(r.2.2 == ct.getD "") then
      findAux idf rt nm ct rest (i + 1)
    else (i : Int)

/-- `_find_resource_record_set`: index of the first record accepted by the
filter, or `-1` when the scan exhausts the list. -/
def findResourceRecordSet (records : List DnsRecord)
    (idf rt nm ct : Option String) : Int :=
  findAux idf rt nm ct records 0

/-- `_get_resource_record_sets` applied to the fetched records blob: split
into lines, then split each line at whitespace runs into at most 3
fields.  A line with fewer fields yields a shorter tuple; nothing is
raised here. -/
def getResourceRecordSets (blob : String) : List (List String) :=
  (pySplitlines blob.data).map (fun l => (splitWS2 l).map String.mk)

/-- The serialization performed by `_update_resource_record_sets`: the
three fields joined by single spaces, lines joined by newlines. -/
def updateResourceRecordSets (records : List DnsRecord) : String :=
  strJoin "\n" (records.map (fun r => strJoin " " [r.1, r.2.1, r.2.2]))

/-- Outcome of one mutating operation: the record list afterwards, whether
a zone store (full overwrite PUT) was issued, and the returned boolean. -/
structure OpResult where
  records : List DnsRecord
  stored : Bool
  result : Bool
  deriving DecidableEq, Repr

/-- `_create_record`: a no-op (still returning `True`) when some record
already matches type, relative name and the given content; otherwise
append the new triplet with lower-cased type and CNAME-formatted content
and store the zone. -/
def createRecord (base : String → String) (rtype name content : String)
    (records : List DnsRecord) : OpResult :=
  let name := relativeName base name
  let index := findResourceRecordSet records none (some rtype) (some name) (some content)
  if 0 ≤ index then ⟨records, false, true⟩
  else ⟨records ++ [(strLower rtype, name, bindFormatTarget (some rtype) content)],
        true, true⟩

/-- `_update_record`: raises unless type, name and content are all truthy;
locates the record by identifier / type / relative name (the content
argument is not passed to the find), replaces it in place or appends, and
always stores and returns `True`. -/
def updateRecord (base : String → String) (idf rtype name content : Option String)
    (records : List DnsRecord) : Except String OpResult :=
  if !(truthy rtype && truthy name && truthy content) then
    Except.error "rtype ,name and content must be specified."
  else
    let rt := rtype.getD ""
    let nm := relativeName base (name.getD "")
    let ct := content.getD ""
    let index := findResourceRecordSet records idf (some rt) (some nm) none
    let record : DnsRecord := (strLower rt, nm, bindFormatTarget (some rt) ct)
    let newRecords :=
      if 0 ≤ index then records.set index.toNat record else records ++ [record]
    Except.ok ⟨newRecords, true, true⟩

/-- The per-record filter of `_delete_record`'s first loop: every truthy
filter field must match (identifier against the computed identifier, type
case-insensitively, name and content exactly). -/
def matchesDelete (idf rt nm ct : Option String) (r : DnsRecord) : Bool :=
  !(truthy idf && !(identifier r == idf.getD "")) &&
  !(truthy rt && !(strLower r.1 == strLower (rt.getD ""))) &&
  !(truthy nm && !(r.2.1 == nm.getD "")) &&
  !(truthy ct && !(r.2.2 == ct.getD ""))

/-- `_delete_record`: relativize the name filter and CNAME-format the
content filter when present, collect every matching record, return
`False` without storing when none match, otherwise remove each collected
record (first-equal removal, Python `list.remove`) and store. -/
def deleteRecord (base : String → String) (idf rt nm ct : Option String)
    (records : List DnsRecord) : OpResult :=
  let nm := nm.map (relativeName base)
  let ct := ct.map (bindFormatTarget rt)
  let filtered := records.filter (matchesDelete idf rt nm ct)
  if filtered == [] then ⟨records, false, false⟩
  else ⟨filtered.foldl (fun acc r => acc.erase r) records, true, true⟩

/-- One exposed record as returned by `_list_records` (`rtype` models the
dictionary key named type). -/
structure ExposedRecord where
  rtype : String
  name : String
  ttl : Nat
  content : String
  id : String
  deriving DecidableEq, Repr

/-- The filtering loop of `_list_records` over the parsed records. -/
def listRecordsAux (base : String → String) (domain : String) (ttl : Nat)
    (rt fullNm ct : Option String) : List DnsRecord → List ExposedRecord
  | [] => []
  | r :: rest =>
    let p : ExposedRecord :=
      ⟨strUpper r.1, fullName base domain r.2.1, ttl, r.2.2, identifier r⟩
    let keep :=
      !(truthy rt && !(strLower p.rtype == strLower (rt.getD ""))) &&
      !(truthy fullNm && !(p.name == fullNm.getD "")) &&
      !(truthy ct && !(p.content == ct.getD ""))
    if keep then p :: listRecordsAux base domain ttl rt fullNm ct rest
    else listRecordsAux base domain ttl rt fullNm ct rest

/-- `_list_records`: compute the optional full-name filter from a truthy
name argument, then expose each surviving record with upper-cased type,
full name, the zone ttl, the raw content and the synthetic identifier. -/
def listRecords (base : String → String) (domain : String) (ttl : Nat)
    (rt nm ct : Option String) (records : List DnsRecord) : List ExposedRecord :=
  let fullNm := if truthy nm then some (fullName base domain (nm.getD "")) else none
  listRecordsAux base domain ttl rt fullNm ct records

/-! ### Characterization of the find scan -/

/-- The positive per-record acceptance of the find for the non-identifier
fields: every truthy one of type (case-insensitive), name, content must
match. -/
def matchesFind (rt nm ct : Option String) (r : DnsRecord) : Bool :=
  !(truthy rt && !(strLower r.1 == strLower (rt.getD ""))) &&
  !(truthy nm && !(r.2.1 == nm.getD "")) &&
  !(truthy ct && !(r.2.2 == ct.getD ""))

/-- Full per-record acceptance of the find scan: a truthy identifier that
matches accepts unconditionally, otherwise the remaining truthy fields
must all match. -/
def matchesFindFull (idf rt nm ct : Option String) (r : DnsRecord) : Bool :=
  (truthy idf && (identifier r == idf.getD "")) || matchesFind rt nm ct r

/-- A record matching a given type (case-insensitively), relative name
and content: the acceptance used by create's pre-existence check. -/
def matchesTriplet (rtype nm content : String) (r : DnsRecord) : Bool :=
  strLower r.1 == strLower rtype && r.2.1 == nm && r.2.2 == content

/-- Joining character lines with the newline character (the data-level
image of joining strings with the newline). -/
def joinNL : List (List Char) → List Char
  | [] => []
  | [l] => l
  | l :: ls => l ++ '\n' :: joinNL ls

/-- Well-formedness of one triplet for the round-trip law: non-empty
fields, no whitespace in type and name, no line breaks in the content,
no leading or trailing whitespace in the content. -/
def wellFormed (r : DnsRecord) : Bool :=
  r.1 != "" && r.2.1 != "" && r.2.2 != "" &&
  r.1.data.all (fun c => !isWSChar c) &&
  r.2.1.data.all (fun c => !isWSChar c) &&
  r.2.2.data.all (fun c => !isBreakChar c) &&
  r.2.2.data.head?.all (fun c => !isWSChar c) &&
  r.2.2.data.getLast?.all (fun c => !isWSChar c)

/-! ### General lemmas about the split primitives -/

theorem dropWS_length_le (cs : List Char) : (dropWS cs).length ≤ cs.length := by
  induction cs with
  | nil => simp [dropWS]
  | cons c cs ih =>
    by_cases h : isWSChar c
    · simp only [dropWS, h, if_true, List.length_cons]
      omega
    · simp [dropWS, h]

theorem breakWS_snd_some {cs r : List Char} (h : (breakWS cs).2 = some r) :
    r.length < cs.length := by
  induction cs with
  | nil => simp [breakWS] at h
  | cons c cs ih =>
    by_cases hw : isWSChar c
    · simp only [breakWS, hw, if_true] at h
      cases h
      have := dropWS_length_le cs
      simp only [List.length_cons]
      omega
    · simp only [breakWS, hw, Bool.false_eq_true, if_false] at h
      have := ih h
      simp only [List.length_cons]
      omega

theorem splitWSAllFuel_congr (f1 : Nat) :
    ∀ (cs : List Char) (f2 : Nat), cs.length < f1 → cs.length < f2 →
      splitWSAllFuel f1 cs = splitWSAllFuel f2 cs := by
  induction f1 with
  | zero => intro cs f2 h1 _; omega
  | succ f1 ih =>
    intro cs f2 h1 h2
    match f2, h2 with
    | g + 1, h2 =>
      rcases hb : breakWS cs with ⟨a, o⟩
      cases o with
      | none => simp [splitWSAllFuel, hb]
      | some r =>
        have hr : r.length < cs.length := breakWS_snd_some (by rw [hb])
        simp only [splitWSAllFuel, hb]
        rw [ih r g (by omega) (by omega)]

theorem splitWSAllFuel_eq {fuel : Nat} {cs : List Char} (h : cs.length < fuel) :
    splitWSAllFuel fuel cs = splitWSAll cs :=
  splitWSAllFuel_congr fuel cs (cs.length + 1) h (Nat.lt_succ_self _)

theorem findAux_cons (idf rt nm ct : Option String) (r : DnsRecord)
    (rest : List DnsRecord) (i : Nat) :
    findAux idf rt nm ct (r :: rest) i =
      if matchesFindFull idf rt nm ct r then (i : Int)
      else findAux idf rt nm ct rest (i + 1) := by
  simp only [findAux, matchesFindFull, matchesFind]
  rcases Bool.eq_false_or_eq_true (truthy idf && (identifier r == idf.getD "")) with hA | hA <;>
  rcases Bool.eq_false_or_eq_true (truthy rt && !(strLower r.1 == strLower (rt.getD ""))) with hB | hB <;>
  rcases Bool.eq_false_or_eq_true (truthy nm && !(r.2.1 == nm.getD "")) with hC | hC <;>
  rcases Bool.eq_false_or_eq_true (truthy ct && !(r.2.2 == ct.getD "")) with hD | hD <;>
  simp [hA, hB, hC, hD]

theorem findAux_eq_findIdx (idf rt nm ct : Option String)
    (records : List DnsRecord) (i : Nat) :
    findAux idf rt nm ct records i =
      match records.findIdx? (matchesFindFull idf rt nm ct) i with
      | some j => (j : Int)
      | none => -1 := by
  induction records generalizing i with
  | nil => simp [findAux]
  | cons r rest ih =>
    rw [findAux_cons, List.findIdx?_cons]
    by_cases h : matchesFindFull idf rt nm ct r = true
    · rw [if_pos (by simp [h]), if_pos (by simp [h])]
    · have h' : matchesFindFull idf rt nm ct r = false := by simpa using h
      rw [if_neg (by simp [h']), if_neg (by simp [h']), ih]

theorem findResourceRecordSet_eq (records : List DnsRecord)
    (idf rt nm ct : Option String) :
    findResourceRecordSet records idf rt nm ct =
      match records.findIdx? (matchesFindFull idf rt nm ct) with
      | some j => (j : Int)
      | none => -1 :=
  findAux_eq_findIdx idf rt nm ct records 0

/-- With all three field filters truthy, the find acceptance is the plain
conjunction of the three matches. -/
theorem matchesFind_all_truthy {t n c : String} (ht : t ≠ "") (hn : n ≠ "")
    (hc : c ≠ "") (r : DnsRecord) :
    matchesFind (some t) (some n) (some c) r =
      (strLower r.1 == strLower t && r.2.1 == n && r.2.2 == c) := by
  simp only [matchesFind, truthy, Option.getD_some, ne_eq, String.ext_iff] at *
  cases h1 : (strLower r.1 == strLower t) <;>
  cases h2 : (r.2.1 == n) <;>
  cases h3 : (r.2.2 == c) <;>
  simp_all [bne_iff_ne, String.ext_iff]

/-- With type and name truthy and no content filter, the find acceptance
is the conjunction of the type and name matches. -/
theorem matchesFind_type_name {t n : String} (ht : t ≠ "") (hn : n ≠ "")
    (r : DnsRecord) :
    matchesFind (some t) (some n) none r =
      (strLower r.1 == strLower t && r.2.1 == n) := by
  simp only [matchesFind, truthy, Option.getD_some, ne_eq, String.ext_iff] at *
  cases h1 : (strLower r.1 == strLower t) <;>
  cases h2 : (r.2.1 == n) <;>
  simp_all [bne_iff_ne, String.ext_iff]

/-- Without an identifier the full acceptance reduces to the field
acceptance. -/
theorem matchesFindFull_none (rt nm ct : Option String) (r : DnsRecord) :
    matchesFindFull none rt nm ct r = matchesFind rt nm ct r := by
  simp [matchesFindFull, truthy]

/-! ### Case-mapping facts -/

theorem charToLower_idem (c : Char) : Char.toLower (Char.toLower c) = Char.toLower c := by
  simp only [Char.toLower]
  by_cases h : c.toNat ≥ 65 ∧ c.toNat ≤ 90
  · rw [if_pos h]
    have hv : (c.toNat + 32).isValidChar := Or.inl (by omega)
    have ht : (Char.ofNat (c.toNat + 32)).toNat = c.toNat + 32 := by
      rw [Char.ofNat, dif_pos hv]
      rfl
    rw [ht, if_neg (by omega)]
  · rw [if_neg h, if_neg h]

theorem strLower_idem (s : String) : strLower (strLower s) = strLower s := by
  simp [strLower, List.map_map, Function.comp_def, charToLower_idem]

/-- The relative-name wrapper never returns the empty string. -/
theorem relativeName_ne_empty (base : String → String) (n : String) :
    relativeName base n ≠ "" := by
  unfold relativeName
  by_cases h : base n == ""
  · simp [h]
  · simp only [h, Bool.false_eq_true, if_false]
    simpa using h

/-! ### Claim C1: find with an identifier-only filter -/

/-- Claim C1 is false on the code: with a filter holding only an
identifier that matches no record, the scan does not return the -1
sentinel.  For a record whose identifier differs, the absent type, name
and content checks all fall through and the loop returns the current
index, so the first record's index 0 comes back. -/
theorem find_identifier_only_counterexample :
    findResourceRecordSet [("a", "www", "1.2.3.4")] (some "0000000") none none none = 0 ∧
    identifier ("a", "www", "1.2.3.4") ≠ "0000000" := by
  constructor
  · decide
  · decide

/-- Amended C1: with only a (non-empty) identifier given and no record's
computed identifier equal to it, the find returns the index 0 of the
first record whenever the record sequence is non-empty, and -1 only for
the empty sequence. -/
theorem find_identifier_only_fallback (records : List DnsRecord) (id : String)
    (hid : id ≠ "") (hmiss : ∀ r ∈ records, identifier r ≠ id) :
    findResourceRecordSet records (some id) none none none =
      if records.isEmpty then -1 else 0 := by
  cases records with
  | nil => rfl
  | cons r rest =>
    have h2 : (identifier r == id) = false := by
      simpa using hmiss r (List.mem_cons_self r rest)
    simp [findResourceRecordSet, findAux, truthy, h2, hid]

/-- Witness for the amended C1 at a concrete one-record set and a
7-character identifier matching nothing. -/
theorem find_identifier_only_fallback_witness :
    ("0000000" ≠ "" ∧
      ∀ r ∈ ([("a", "www", "1.2.3.4")] : List DnsRecord), identifier r ≠ "0000000") ∧
    findResourceRecordSet [("a", "www", "1.2.3.4")] (some "0000000") none none none =
      if ([("a", "www", "1.2.3.4")] : List DnsRecord).isEmpty then -1 else 0 :=
  ⟨⟨by decide, by decide⟩,
   find_identifier_only_fallback _ _ (by decide) (by decide)⟩

/-! ### Claims C2 and C6: create, and CNAME canonicalization -/

/-- Characterization of `_create_record` for truthy type and content:
a no-op without store when some record matches the triplet, otherwise an
append of the lower-cased, CNAME-formatted record followed by a store. -/
theorem createRecord_eq (base : String → String) (rtype name content : String)
    (records : List DnsRecord) (ht : rtype ≠ "") (hc : content ≠ "") :
    createRecord base rtype name content records =
      match records.findIdx? (matchesTriplet rtype (relativeName base name) content) with
      | some _ => ⟨records, false, true⟩
      | none => ⟨records ++ [(strLower rtype, relativeName base name,
                  bindFormatTarget (some rtype) content)], true, true⟩ := by
  have hpred : matchesFindFull none (some rtype) (some (relativeName base name)) (some content) =
      matchesTriplet rtype (relativeName base name) content := by
    funext r
    rw [matchesFindFull_none, matchesFind_all_truthy ht (relativeName_ne_empty base name) hc]
    rfl
  simp only [createRecord]
  rw [findResourceRecordSet_eq, hpred]
  cases hj : records.findIdx? (matchesTriplet rtype (relativeName base name) content) with
  | some j => simp
  | none => simp

/-- Claim C2 is false on the code: for a CNAME whose content lacks the
trailing dot, the pre-existence check compares the raw argument content
while the stored record holds the dot-appended content, so the second
identical create misses, appends a duplicate, and the set ends with two
equal records rather than one (and none matching the argument content). -/
theorem create_idempotent_counterexample :
    (createRecord (fun s => s) "CNAME" "foo" "example.com" []).records =
      [("cname", "foo", "example.com.")] ∧
    (createRecord (fun s => s) "CNAME" "foo" "example.com"
        [("cname", "foo", "example.com.")]).records =
      [("cname", "foo", "example.com."), ("cname", "foo", "example.com.")] ∧
    (createRecord (fun s => s) "CNAME" "foo" "example.com"
        [("cname", "foo", "example.com.")]).result = true := by
  exact ⟨rfl, rfl, rfl⟩

/-- Amended C2: when the CNAME formatter leaves the content unchanged
(any non-CNAME type, or a content already ending in the dot) and type and
content are non-empty, create is idempotent: both calls return true, the
second call changes nothing and stores nothing, and the final number of
records matching (type, relative name, content) is the initial count or
one, whichever is larger. -/
theorem create_idempotent_when_canonical (base : String → String)
    (rtype name content : String) (records : List DnsRecord)
    (ht : rtype ≠ "") (hc : content ≠ "")
    (hbind : bindFormatTarget (some rtype) content = content) :
    (createRecord base rtype name content records).result = true ∧
    (createRecord base rtype name content
        (createRecord base rtype name content records).records).result = true ∧
    (createRecord base rtype name content
        (createRecord base rtype name content records).records).records =
      (createRecord base rtype name content records).records ∧
    (createRecord base rtype name content
        (createRecord base rtype name content records).records).stored = false ∧
    (createRecord base rtype name content records).records.countP
        (matchesTriplet rtype (relativeName base name) content) =
      max (records.countP (matchesTriplet rtype (relativeName base name) content)) 1 := by
  have hch := createRecord_eq base rtype name content records ht hc
  cases hj : records.findIdx? (matchesTriplet rtype (relativeName base name) content) with
  | some j =>
    rw [hj] at hch
    rcases List.findIdx?_eq_some_iff_getElem.mp hj with ⟨hlt, hp, -⟩
    have hcount : 1 ≤ records.countP (matchesTriplet rtype (relativeName base name) content) := by
      rw [Nat.succ_le, List.countP_pos_iff]
      exact ⟨records[j], List.getElem_mem hlt, hp⟩
    rw [hch]
    refine ⟨rfl, ?_, ?_, ?_, ?_⟩
    · rw [createRecord_eq base rtype name content records ht hc, hj]
    · rw [createRecord_eq base rtype name content records ht hc, hj]
    · rw [createRecord_eq base rtype name content records ht hc, hj]
    · exact (Nat.max_eq_left hcount).symm
  | none =>
    rw [hj] at hch
    have hall := List.findIdx?_eq_none_iff.mp hj
    have hp : matchesTriplet rtype (relativeName base name) content
        (strLower rtype, relativeName base name, bindFormatTarget (some rtype) content) = true := by
      simp [matchesTriplet, hbind, strLower_idem]
    have h2 : (records ++ [(strLower rtype, relativeName base name,
        bindFormatTarget (some rtype) content)]).findIdx?
          (matchesTriplet rtype (relativeName base name) content) ≠ none := by
      rw [Ne, List.findIdx?_eq_none_iff]
      intro hforall
      have := hforall _ (List.mem_append_right records (List.mem_cons_self _ _))
      rw [hp] at this
      cases this
    obtain ⟨k, hk⟩ := Option.ne_none_iff_exists'.mp h2
    have h3 := createRecord_eq base rtype name content
      (records ++ [(strLower rtype, relativeName base name,
        bindFormatTarget (some rtype) content)]) ht hc
    rw [hk] at h3
    rw [hch]
    refine ⟨rfl, ?_, ?_, ?_, ?_⟩
    · rw [h3]
    · rw [h3]
    · rw [h3]
    · rw [List.countP_append, List.countP_eq_zero.mpr (by simpa using hall)]
      simp [List.countP_cons, hp]

/-- Witness for the amended C2 at an A record created twice from the
empty zone. -/
theorem create_idempotent_witness :
    ("A" ≠ "" ∧ "1.2.3.4" ≠ "" ∧ bindFormatTarget (some "A") "1.2.3.4" = "1.2.3.4") ∧
    ((createRecord (fun s => s) "A" "www" "1.2.3.4" []).result = true ∧
     (createRecord (fun s => s) "A" "www" "1.2.3.4"
        (createRecord (fun s => s) "A" "www" "1.2.3.4" []).records).result = true ∧
     (createRecord (fun s => s) "A" "www" "1.2.3.4"
        (createRecord (fun s => s) "A" "www" "1.2.3.4" []).records).records =
       (createRecord (fun s => s) "A" "www" "1.2.3.4" []).records ∧
     (createRecord (fun s => s) "A" "www" "1.2.3.4"
        (createRecord (fun s => s) "A" "www" "1.2.3.4" []).records).stored = false ∧
     (createRecord (fun s => s) "A" "www" "1.2.3.4" []).records.countP
        (matchesTriplet "A" (relativeName (fun s => s) "www") "1.2.3.4") =
       max (([] : List DnsRecord).countP
        (matchesTriplet "A" (relativeName (fun s => s) "www") "1.2.3.4")) 1) :=
  ⟨⟨by decide, by decide, by decide⟩,
   create_idempotent_when_canonical (fun s => s) "A" "www" "1.2.3.4" []
     (by decide) (by decide) (by decide)⟩

/-- Claim C6 is false as stated: the CNAME check compares the type
argument case-sensitively against the upper-case literal, so creating a
CNAME record with the lower-case type spelling stores the content
without the trailing dot. -/
theorem cname_canonicalization_counterexample :
    (createRecord (fun s => s) "cname" "foo" "example.com" []).records =
      [("cname", "foo", "example.com")] ∧
    pyEndsWith "example.com" "." = false := by
  exact ⟨rfl, rfl⟩

/-- Every exposed record's content is some stored record's content,
verbatim: the unfiltered list operation never rewrites content. -/
theorem listRecordsAux_no_filter_contents (base : String → String) (domain : String)
    (ttl : Nat) :
    ∀ recs : List DnsRecord,
      (listRecordsAux base domain ttl none none none recs).map ExposedRecord.content =
        recs.map (fun r => r.2.2) := by
  intro recs
  induction recs with
  | nil => rfl
  | cons r rest ih =>
    simp only [listRecordsAux, truthy, Bool.false_and, Bool.not_false, Bool.and_self,
      if_true, List.map_cons]
    rw [ih]

/-- Amended C6: the trailing-dot canonicalization happens on write
exactly when the type argument is the literal upper-case CNAME: a miss
on create appends the dot-suffixed content, the formatter adds the dot
for CNAME and leaves any other spelling (such as lower-case cname)
alone, and the read path exposes stored content verbatim. -/
theorem cname_canonicalization (base : String → String) (name content : String)
    (records recs : List DnsRecord) (domain : String) (ttl : Nat)
    (hdot : pyEndsWith content "." = false) (hc : content ≠ "")
    (hmiss : records.findIdx? (matchesTriplet "CNAME" (relativeName base name) content) = none) :
    (createRecord base "CNAME" name content records).records =
      records ++ [("cname", relativeName base name, content ++ ".")] ∧
    bindFormatTarget (some "CNAME") content = content ++ "." ∧
    bindFormatTarget (some "cname") content = content ∧
    (listRecords base domain ttl none none none recs).map ExposedRecord.content =
      recs.map (fun r => r.2.2) := by
  have hbind : bindFormatTarget (some "CNAME") content = content ++ "." := by
    simp [bindFormatTarget, hdot]
  refine ⟨?_, hbind, rfl, listRecordsAux_no_filter_contents base domain ttl recs⟩
  rw [createRecord_eq base "CNAME" name content records (by decide) hc, hmiss]
  rw [hbind]
  rfl

/-- Witness for the amended C6 at a concrete CNAME create from the empty
zone and a concrete unfiltered list. -/
theorem cname_canonicalization_witness :
    (pyEndsWith "example.org" "." = false ∧ "example.org" ≠ "" ∧
      ([] : List DnsRecord).findIdx?
        (matchesTriplet "CNAME" (relativeName (fun s => s) "foo") "example.org") = none) ∧
    ((createRecord (fun s => s) "CNAME" "foo" "example.org" []).records =
      [] ++ [("cname", relativeName (fun s => s) "foo", "example.org" ++ ".")] ∧
    bindFormatTarget (some "CNAME") "example.org" = "example.org" ++ "." ∧
    bindFormatTarget (some "cname") "example.org" = "example.org" ∧
    (listRecords (fun s => s) "example.org" 3600 none none none
        [("a", "www", "1.2.3.4")]).map ExposedRecord.content =
      [(("a", "www", "1.2.3.4") : DnsRecord)].map (fun r => r.2.2)) :=
  ⟨⟨by decide, by decide, by decide⟩,
   cname_canonicalization (fun s => s) "foo" "example.org" [] [("a", "www", "1.2.3.4")]
     "example.org" 3600 (by decide) (by decide) (by decide)⟩

/-! ### Claims C3 and C4: the zone text codec -/

theorem data_ne_nil_of_ne_empty {s : String} (h : s ≠ "") : s.data ≠ [] := by
  intro hd
  apply h
  cases s with
  | mk data => simp at hd; rw [hd]

theorem isWSChar_of_isBreakChar {c : Char} (h : isBreakChar c = true) :
    isWSChar c = true := by
  have hm : c ∈ breakChars := by
    simpa [isBreakChar, List.contains_iff_exists_mem_beq] using h
  fin_cases hm <;> decide

theorem pySplitlines_cons_newline (rest : List Char) :
    pySplitlines ('\n' :: rest) = [] :: pySplitlines rest := by
  simp [pySplitlines, (by decide : isBreakChar '\n' = true)]

theorem pySplitlines_cons_no_break {c : Char} (cs : List Char)
    (h : isBreakChar c = false) :
    pySplitlines (c :: cs) =
      (match pySplitlines cs with | [] => [[c]] | l :: ls => (c :: l) :: ls) := by
  rw [pySplitlines.eq_def]
  simp [h]

theorem pySplitlines_no_break {l : List Char} (hne : l ≠ [])
    (hl : ∀ c ∈ l, isBreakChar c = false) : pySplitlines l = [l] := by
  induction l with
  | nil => exact absurd rfl hne
  | cons c cs ih =>
    have hc : isBreakChar c = false := hl c (List.mem_cons_self c cs)
    rw [pySplitlines_cons_no_break cs hc]
    cases cs with
    | nil => rfl
    | cons d ds =>
      rw [ih (by simp) (fun x hx => hl x (List.mem_cons_of_mem c hx))]

theorem pySplitlines_append_newline {l : List Char} (rest : List Char)
    (hl : ∀ c ∈ l, isBreakChar c = false) :
    pySplitlines (l ++ '\n' :: rest) = l :: pySplitlines rest := by
  induction l with
  | nil => simpa using pySplitlines_cons_newline rest
  | cons c cs ih =>
    have hc : isBreakChar c = false := hl c (List.mem_cons_self c cs)
    rw [List.cons_append, pySplitlines_cons_no_break _ hc,
        ih (fun x hx => hl x (List.mem_cons_of_mem c hx))]

theorem pySplitlines_joinNL (lines : List (List Char))
    (h : ∀ l ∈ lines, l ≠ [] ∧ ∀ c ∈ l, isBreakChar c = false) :
    pySplitlines (joinNL lines) = lines := by
  induction lines with
  | nil => rfl
  | cons l ls ih =>
    cases ls with
    | nil =>
      exact pySplitlines_no_break (h l (List.mem_cons_self l [])).1
        (h l (List.mem_cons_self l [])).2
    | cons m ms =>
      show pySplitlines (l ++ '\n' :: joinNL (m :: ms)) = l :: m :: ms
      rw [pySplitlines_append_newline _ (h l (List.mem_cons_self l (m :: ms))).2,
          ih (fun x hx => h x (List.mem_cons_of_mem l hx))]

theorem strJoin_newline_data (xs : List String) :
    (strJoin "\n" xs).data = joinNL (xs.map String.data) := by
  induction xs with
  | nil => rfl
  | cons x xs ih =>
    cases xs with
    | nil => rfl
    | cons y ys =>
      show (x ++ "\n" ++ strJoin "\n" (y :: ys)).data =
        x.data ++ '\n' :: joinNL ((y :: ys).map String.data)
      rw [String.data_append, String.data_append, ih]
      simp

theorem dropWS_no_lead {cs : List Char}
    (h : ∀ c, cs.head? = some c → isWSChar c = false) : dropWS cs = cs := by
  cases cs with
  | nil => rfl
  | cons c cs' => simp [dropWS, h c rfl]

theorem breakWS_no_ws {a : List Char} (h : ∀ c ∈ a, isWSChar c = false) :
    breakWS a = (a, none) := by
  induction a with
  | nil => rfl
  | cons c cs ih =>
    simp [breakWS, h c (List.mem_cons_self c cs),
      ih (fun x hx => h x (List.mem_cons_of_mem c hx))]

theorem breakWS_append {a : List Char} (w : Char) (rest : List Char)
    (hw : isWSChar w = true) (h : ∀ c ∈ a, isWSChar c = false) :
    breakWS (a ++ w :: rest) = (a, some (dropWS rest)) := by
  induction a with
  | nil => simp [breakWS, hw]
  | cons c cs ih =>
    simp [breakWS, h c (List.mem_cons_self c cs),
      ih (fun x hx => h x (List.mem_cons_of_mem c hx))]

theorem splitWS2_line {t n c : List Char}
    (htw : ∀ x ∈ t, isWSChar x = false) (hnw : ∀ x ∈ n, isWSChar x = false)
    (hn : n ≠ []) (hcw : ∀ x, c.head? = some x → isWSChar x = false) :
    splitWS2 (t ++ ' ' :: (n ++ ' ' :: c)) = [t, n, c] := by
  have h1 : breakWS (t ++ ' ' :: (n ++ ' ' :: c)) = (t, some (dropWS (n ++ ' ' :: c))) :=
    breakWS_append ' ' _ (by decide) htw
  have hd1 : dropWS (n ++ ' ' :: c) = n ++ ' ' :: c := by
    apply dropWS_no_lead
    intro x hx
    cases n with
    | nil => exact absurd rfl hn
    | cons n0 ns =>
      have hxx : n0 = x := by simpa using hx
      rw [← hxx]
      exact hnw n0 (List.mem_cons_self n0 ns)
  have h2 : breakWS (n ++ ' ' :: c) = (n, some (dropWS c)) :=
    breakWS_append ' ' _ (by decide) hnw
  have hd2 : dropWS c = c := dropWS_no_lead hcw
  rw [hd1] at h1
  rw [hd2] at h2
  simp only [splitWS2, h1, h2]

theorem isBreakChar_eq_false_of_isWSChar_eq_false {c : Char}
    (h : isWSChar c = false) : isBreakChar c = false := by
  cases hb : isBreakChar c
  · rfl
  · rw [isWSChar_of_isBreakChar hb] at h
    cases h

/-- The components of well-formedness needed by the round-trip proof. -/
theorem wellFormed_parts {r : DnsRecord} (hw : wellFormed r = true) :
    r.2.1.data ≠ [] ∧
    (∀ x ∈ r.1.data, isWSChar x = false) ∧
    (∀ x ∈ r.2.1.data, isWSChar x = false) ∧
    (∀ x ∈ r.2.2.data, isBreakChar x = false) ∧
    (∀ x, r.2.2.data.head? = some x → isWSChar x = false) := by
  simp only [wellFormed, Bool.and_eq_true] at hw
  obtain ⟨⟨⟨⟨⟨⟨⟨h1, h2⟩, h3⟩, h4⟩, h5⟩, h6⟩, h7⟩, h8⟩ := hw
  refine ⟨data_ne_nil_of_ne_empty (by simpa using h2), ?_, ?_, ?_, ?_⟩
  · intro x hx
    simpa using (List.all_eq_true.mp h4) x hx
  · intro x hx
    simpa using (List.all_eq_true.mp h5) x hx
  · intro x hx
    simpa using (List.all_eq_true.mp h6) x hx
  · intro x hx
    rw [hx, Option.all_some] at h7
    simpa using h7

/-- Claim C4 holds: parsing the serialized text of a sequence of
well-formed triplets returns exactly the original triplets, in order. -/
theorem parse_serialize_roundtrip (ts : List DnsRecord)
    (h : ∀ r ∈ ts, wellFormed r = true) :
    getResourceRecordSets (updateResourceRecordSets ts) =
      ts.map (fun r => [r.1, r.2.1, r.2.2]) := by
  unfold getResourceRecordSets updateResourceRecordSets
  rw [strJoin_newline_data, List.map_map]
  have hcomp : (String.data ∘ fun r : DnsRecord => strJoin " " [r.1, r.2.1, r.2.2]) =
      fun r : DnsRecord => r.1.data ++ ' ' :: (r.2.1.data ++ ' ' :: r.2.2.data) := by
    funext r
    show (r.1 ++ " " ++ (r.2.1 ++ " " ++ r.2.2)).data = _
    simp only [String.data_append, (rfl : (" " : String).data = [' ']),
      List.append_assoc, List.singleton_append]
  rw [hcomp]
  have hlines : ∀ l ∈ ts.map (fun r : DnsRecord =>
      r.1.data ++ ' ' :: (r.2.1.data ++ ' ' :: r.2.2.data)),
      l ≠ [] ∧ ∀ c ∈ l, isBreakChar c = false := by
    intro l hl
    obtain ⟨r, hr, rfl⟩ := List.mem_map.mp hl
    obtain ⟨-, htw, hnw, hcb, -⟩ := wellFormed_parts (h r hr)
    refine ⟨List.append_ne_nil_of_right_ne_nil _ (by simp), ?_⟩
    intro x hx
    rcases List.mem_append.mp hx with hx | hx
    · exact isBreakChar_eq_false_of_isWSChar_eq_false (htw x hx)
    · rcases List.mem_cons.mp hx with rfl | hx
      · decide
      · rcases List.mem_append.mp hx with hx | hx
        · exact isBreakChar_eq_false_of_isWSChar_eq_false (hnw x hx)
        · rcases List.mem_cons.mp hx with rfl | hx
          · decide
          · exact hcb x hx
  rw [pySplitlines_joinNL _ hlines, List.map_map]
  apply List.map_congr_left
  intro r hr
  obtain ⟨hnn, htw, hnw, -, hch⟩ := wellFormed_parts (h r hr)
  show (splitWS2 (r.1.data ++ ' ' :: (r.2.1.data ++ ' ' :: r.2.2.data))).map String.mk =
    [r.1, r.2.1, r.2.2]
  rw [splitWS2_line htw hnw hnn hch]
  rfl

/-- Witness for C4 at a concrete well-formed two-record sequence (one
content containing an inner space). -/
theorem parse_serialize_roundtrip_witness :
    (∀ r ∈ ([("a", "www", "1.2.3.4"), ("txt", "x", "hello world")] : List DnsRecord),
      wellFormed r = true) ∧
    getResourceRecordSets (updateResourceRecordSets
        [("a", "www", "1.2.3.4"), ("txt", "x", "hello world")]) =
      [["a", "www", "1.2.3.4"], ["txt", "x", "hello world"]] :=
  ⟨by decide, by
    rw [parse_serialize_roundtrip
      [("a", "www", "1.2.3.4"), ("txt", "x", "hello world")] (by decide)]
    rfl⟩

theorem splitWSAll_step (cs : List Char) :
    splitWSAll cs = match breakWS cs with
      | (a, none) => [a]
      | (a, some r) => a :: splitWSAll r := by
  rw [splitWSAll]
  rcases hb : breakWS cs with ⟨a, o⟩
  cases o with
  | none => simp [splitWSAllFuel, hb]
  | some r =>
    have hr : r.length < cs.length := breakWS_snd_some (by rw [hb])
    simp only [splitWSAllFuel, hb]
    rw [splitWSAllFuel_eq (by omega)]

theorem splitWSAll_length_pos (cs : List Char) : 0 < (splitWSAll cs).length := by
  rw [splitWSAll_step]
  rcases hb : breakWS cs with ⟨a, o⟩
  cases o <;> simp

/-- The capped split has min(fields, 3) parts: the remainder after the
second whitespace run is kept as one final part. -/
theorem splitWS2_length (cs : List Char) :
    (splitWS2 cs).length = min (splitWSAll cs).length 3 := by
  rcases h1 : breakWS cs with ⟨a, o1⟩
  cases o1 with
  | none =>
    have houter : splitWSAll cs = [a] := by rw [splitWSAll_step, h1]
    simp only [splitWS2, h1, houter, List.length_cons, List.length_nil]
    omega
  | some r =>
    have houter : splitWSAll cs = a :: splitWSAll r := by rw [splitWSAll_step, h1]
    rcases h2 : breakWS r with ⟨b, o2⟩
    cases o2 with
    | none =>
      have hinner : splitWSAll r = [b] := by rw [splitWSAll_step, h2]
      simp [splitWS2, h1, h2, houter, hinner]
    | some r2 =>
      have hinner : splitWSAll r = b :: splitWSAll r2 := by rw [splitWSAll_step, h2]
      have hpos := splitWSAll_length_pos r2
      simp only [splitWS2, h1, h2, houter, hinner, List.length_cons, List.length_nil]
      omega

/-- Claim C3 is false on the code: parsing is total and never raises.  A
one-line blob with two fields parses successfully into the degenerate
two-element tuple rather than failing: no malformed-line error exists in
the code. -/
theorem parse_malformed_counterexample :
    getResourceRecordSets "a b" = [["a", "b"]] ∧
    ∀ t ∈ getResourceRecordSets "a b", t.length < 3 := by
  exact ⟨rfl, by decide⟩

/-- Amended C3: parsing never fails; every line yields a tuple of
min(number of whitespace-separated fields, 3) parts, so a line with
fewer than 3 fields yields a degenerate short tuple (length 1 or 2) that
flows to the caller instead of an error. -/
theorem parse_total_short_tuples :
    (∀ blob : String, ∀ t ∈ getResourceRecordSets blob, 1 ≤ t.length ∧ t.length ≤ 3) ∧
    ∀ cs : List Char, (splitWS2 cs).length = min (splitWSAll cs).length 3 := by
  constructor
  · intro blob t ht
    obtain ⟨l, -, rfl⟩ := List.mem_map.mp ht
    rw [List.length_map, splitWS2_length]
    have hpos := splitWSAll_length_pos l
    omega
  · exact splitWS2_length

/-- Witness for the amended C3: a two-field line parses to a two-part
tuple, and a four-field line is capped at three parts. -/
theorem parse_total_short_tuples_witness :
    (1 ≤ (["a", "b"] : List String).length ∧ (["a", "b"] : List String).length ≤ 3) ∧
    (splitWS2 ("a b c d".data)).length = min (splitWSAll ("a b c d".data)).length 3 :=
  ⟨parse_total_short_tuples.1 "a b" ["a", "b"] (by decide),
   parse_total_short_tuples.2 ("a b c d".data)⟩

/-- UTF-8 encoding distributes over string concatenation. -/
theorem utf8_append (a b : String) : utf8 (a ++ b) = utf8 a ++ utf8 b := by
  simp [utf8, String.data_append]

/-- Claim C9 holds: the identifier of a triplet is the first 7 hex
characters of the SHA-256 hex digest of the single concatenated string
built from the three prefixed fields (the three incremental hash updates
feed exactly the bytes of that concatenation), and the identifier is a
function of the triplet, so identical triplets get identical
identifiers. -/
theorem identifier_spec :
    (∀ t n c : String, identifier (t, n, c) =
      strTake (hexdigest (utf8 ("type=" ++ strLower t ++ ("name=" ++ n ++ ("data=" ++ c))))) 7) ∧
    ∀ r s : DnsRecord, r = s → identifier r = identifier s := by
  constructor
  · intro t n c
    simp only [identifier, sha256Update, sha256Init, utf8_append]
    simp only [List.append_eq, List.nil_append, List.append_assoc]
  · intro r s h
    rw [h]

/-- Witness for C9 at a concrete triplet, including the concrete
7-hex-character value of the identifier. -/
theorem identifier_spec_witness :
    identifier ("a", "www", "1.2.3.4") =
      strTake (hexdigest (utf8 ("type=" ++ strLower "a" ++ ("name=" ++ "www" ++ ("data=" ++ "1.2.3.4"))))) 7 ∧
    identifier ("a", "www", "1.2.3.4") = identifier ("a", "www", "1.2.3.4") ∧
    identifier ("a", "www", "1.2.3.4") = "9facceb" :=
  ⟨identifier_spec.1 "a" "www" "1.2.3.4",
   identifier_spec.2 ("a", "www", "1.2.3.4") ("a", "www", "1.2.3.4") rfl,
   by decide⟩

/-! ### Claim C8: update argument validation -/

/-- Claim C8 is false as stated: providing all three of type, name and
content does not preclude the error, because the check tests Python
truthiness, not presence.  Here all three are provided but the type is
the empty string, and the update still raises. -/
theorem update_invalid_arguments_counterexample :
    updateRecord (fun s => s) none (some "") (some "x") (some "y") [] =
      Except.error "rtype ,name and content must be specified." ∧
    (some "" : Option String).isSome = true ∧
    (some "x" : Option String).isSome = true ∧
    (some "y" : Option String).isSome = true := by
  exact ⟨rfl, rfl, rfl, rfl⟩

/-- Amended C8: update raises the invalid-arguments error exactly when
type, name and content are not all truthy (present and non-empty); with
all three truthy it always returns a success value. -/
theorem update_invalid_arguments_iff (base : String → String)
    (idf rtype name content : Option String) (records : List DnsRecord) :
    updateRecord base idf rtype name content records =
        Except.error "rtype ,name and content must be specified." ↔
      (truthy rtype && truthy name && truthy content) = false := by
  unfold updateRecord
  by_cases hg : (truthy rtype && truthy name && truthy content) = true
  · simp [hg]
  · have hg' : (truthy rtype && truthy name && truthy content) = false := by
      simpa using hg
    simp [hg']

/-! ### Claim C5: upsert by identifier -/

/-- Claim C5 is false on the code: update with an identifier also passes
the new record's type and name to the find, and an earlier record
matching that type and name wins over the identified record.  Here the
identifier names the record at index 1, but index 0 (same type and name,
different content and identifier) is replaced instead. -/
theorem update_by_identifier_counterexample :
    updateRecord (fun s => s) (some (identifier ("a", "www", "2.2.2.2")))
        (some "A") (some "www") (some "9.9.9.9")
        [("a", "www", "1.1.1.1"), ("a", "www", "2.2.2.2")] =
      Except.ok ⟨[("a", "www", "9.9.9.9"), ("a", "www", "2.2.2.2")], true, true⟩ ∧
    identifier (("a", "www", "2.2.2.2") : DnsRecord) ≠
      identifier (("a", "www", "1.1.1.1") : DnsRecord) ∧
    [(("a", "www", "9.9.9.9") : DnsRecord), ("a", "www", "2.2.2.2")] ≠
      [("a", "www", "1.1.1.1"), ("a", "www", "9.9.9.9")] := by
  refine ⟨by rfl, by decide, by decide⟩

/-- Amended C5: update with an identifier replaces in place the first
record that either bears that identifier or matches the new record's
type (case-insensitively) and relative name.  When the identified record
at index i is that first combined match, it is replaced at index i, the
length is unchanged and every other position is untouched. -/
theorem update_by_identifier_replaces_in_place (base : String → String)
    (id rtype name content : String) (records : List DnsRecord) (i : Nat)
    (hi : i < records.length) (hid : id ≠ "")
    (ht : rtype ≠ "") (hn : name ≠ "") (hc : content ≠ "")
    (hmatch : identifier records[i] = id)
    (hearlier : ∀ j (hj : j < i),
        identifier (records.get ⟨j, Nat.lt_trans hj hi⟩) ≠ id ∧
        (strLower (records.get ⟨j, Nat.lt_trans hj hi⟩).1 ≠ strLower rtype ∨
         (records.get ⟨j, Nat.lt_trans hj hi⟩).2.1 ≠ relativeName base name)) :
    updateRecord base (some id) (some rtype) (some name) (some content) records =
      Except.ok ⟨records.set i (strLower rtype, relativeName base name,
        bindFormatTarget (some rtype) content), true, true⟩ ∧
    (records.set i (strLower rtype, relativeName base name,
        bindFormatTarget (some rtype) content)).length = records.length ∧
    ∀ j, j ≠ i → (records.set i (strLower rtype, relativeName base name,
        bindFormatTarget (some rtype) content))[j]? = records[j]? := by
  have hg : (truthy (some rtype) && truthy (some name) && truthy (some content)) = true := by
    simp [truthy, ht, hn, hc]
  have hfind : records.findIdx?
      (matchesFindFull (some id) (some rtype) (some (relativeName base name)) none) = some i := by
    rw [List.findIdx?_eq_some_iff_getElem]
    refine ⟨hi, ?_, ?_⟩
    · simp only [matchesFindFull, truthy, Option.getD_some]
      have : (identifier records[i] == id) = true := by simp [hmatch]
      simp [this, hid]
    · intro j hj
      rcases hearlier j hj with ⟨hid2, hfield⟩
      simp only [matchesFindFull, truthy, Option.getD_some]
      rw [matchesFind_type_name ht (relativeName_ne_empty base name)]
      have h1 : (identifier (records.get ⟨j, Nat.lt_trans hj hi⟩) == id) = false := by
        simpa using hid2
      have h2 : (strLower (records.get ⟨j, Nat.lt_trans hj hi⟩).1 == strLower rtype &&
          (records.get ⟨j, Nat.lt_trans hj hi⟩).2.1 == relativeName base name) = false := by
        rcases hfield with hf | hf
        · have hb : (strLower (records.get ⟨j, Nat.lt_trans hj hi⟩).1 ==
              strLower rtype) = false := by simpa using hf
          rw [hb, Bool.false_and]
        · have hb : ((records.get ⟨j, Nat.lt_trans hj hi⟩).2.1 ==
              relativeName base name) = false := by simpa using hf
          rw [hb, Bool.and_false]
      simp only [List.get_eq_getElem] at h1 h2
      simp [h1, h2, hid]
  refine ⟨?_, by simp, fun j hj => List.getElem?_set_ne (fun h => hj h.symm)⟩
  unfold updateRecord
  rw [if_neg (by simp [hg])]
  simp only [Option.getD_some]
  rw [findResourceRecordSet_eq, hfind]
  simp

/-- Witness for the amended C5: the identified record sits at index 1 and
no earlier record shares its identifier or its type and name, so index 1
is replaced in place. -/
theorem update_by_identifier_replaces_in_place_witness :
    ((1 : Nat) < 2 ∧ "9facceb" ≠ "" ∧ "A" ≠ "" ∧ "www" ≠ "" ∧ "9.9.9.9" ≠ "" ∧
      identifier (("a", "www", "1.2.3.4") : DnsRecord) = "9facceb" ∧
      identifier (("txt", "alpha", "beta") : DnsRecord) ≠ "9facceb") ∧
    updateRecord (fun s => s) (some "9facceb") (some "A") (some "www") (some "9.9.9.9")
        [("txt", "alpha", "beta"), ("a", "www", "1.2.3.4")] =
      Except.ok ⟨[("txt", "alpha", "beta"), ("a", "www", "9.9.9.9")], true, true⟩ :=
  ⟨⟨by decide, by decide, by decide, by decide, by decide, by decide, by decide⟩, by
    rw [(update_by_identifier_replaces_in_place (fun s => s) "9facceb" "A" "www" "9.9.9.9"
        [("txt", "alpha", "beta"), ("a", "www", "1.2.3.4")] 1 (by decide) (by decide)
        (by decide) (by decide) (by decide) (by decide) (by decide)).1]
    rfl⟩

/-! ### Claim C7: delete semantics -/

/-- Folding first-equal removal over a list never increases the length of
the accumulator. -/
theorem foldl_erase_length_le (fs : List DnsRecord) :
    ∀ acc : List DnsRecord,
      (fs.foldl (fun acc r => acc.erase r) acc).length ≤ acc.length := by
  induction fs with
  | nil => intro acc; exact Nat.le_refl _
  | cons f fs ih =>
    intro acc
    calc (fs.foldl (fun acc r => acc.erase r) (acc.erase f)).length
        ≤ (acc.erase f).length := ih _
      _ ≤ acc.length := List.length_erase_le f acc

/-- Claim C7 holds: delete returns true only when at least one record was
actually removed (the list strictly shrinks); when the filter matches no
record it returns false, leaves the records unchanged and issues no
store; and a false result always means unchanged records and no store. -/
theorem delete_record_spec (base : String → String) (idf rt nm ct : Option String)
    (records : List DnsRecord) :
    ((deleteRecord base idf rt nm ct records).result = true →
      (deleteRecord base idf rt nm ct records).records.length < records.length) ∧
    (records.filter (matchesDelete idf rt (nm.map (relativeName base))
        (ct.map (bindFormatTarget rt))) = [] →
      deleteRecord base idf rt nm ct records = ⟨records, false, false⟩) ∧
    ((deleteRecord base idf rt nm ct records).result = false →
      (deleteRecord base idf rt nm ct records).records = records ∧
      (deleteRecord base idf rt nm ct records).stored = false) := by
  by_cases hf : records.filter (matchesDelete idf rt (nm.map (relativeName base))
      (ct.map (bindFormatTarget rt))) = []
  · have hd : deleteRecord base idf rt nm ct records = ⟨records, false, false⟩ := by
      simp only [deleteRecord]
      rw [if_pos (by simp [hf])]
    rw [hd]
    exact ⟨fun h => absurd h Bool.false_ne_true, fun _ => rfl, fun _ => ⟨rfl, rfl⟩⟩
  · have hd : deleteRecord base idf rt nm ct records =
        ⟨(records.filter (matchesDelete idf rt (nm.map (relativeName base))
            (ct.map (bindFormatTarget rt)))).foldl (fun acc r => acc.erase r) records,
          true, true⟩ := by
      simp only [deleteRecord]
      rw [if_neg (by simp [hf])]
    rw [hd]
    refine ⟨fun _ => ?_, fun h => absurd h hf, fun h => by cases h⟩
    cases hcons : records.filter (matchesDelete idf rt (nm.map (relativeName base))
        (ct.map (bindFormatTarget rt))) with
    | nil => exact absurd hcons hf
    | cons f fs =>
      have hmem : f ∈ records :=
        List.mem_of_mem_filter (hcons ▸ List.mem_cons_self f fs)
      have hpos : 0 < records.length := List.length_pos_of_mem hmem
      calc (fs.foldl (fun acc r => acc.erase r) (records.erase f)).length
          ≤ (records.erase f).length := foldl_erase_length_le fs _
        _ = records.length - 1 := List.length_erase_of_mem hmem
        _ < records.length := by omega

/-- Witness for C7: one call that removes matching records and returns
true with a shorter list, and one call whose filter matches nothing and
returns false with the records untouched and no store. -/
theorem delete_record_spec_witness :
    ((deleteRecord (fun s => s) none (some "A") none none
        [("a", "x", "y"), ("txt", "z", "w")]).result = true ∧
     (deleteRecord (fun s => s) none (some "A") none none
        [("a", "x", "y"), ("txt", "z", "w")]).records.length < 2) ∧
    deleteRecord (fun s => s) none (some "a") none none [("txt", "x", "y")] =
      ⟨[("txt", "x", "y")], false, false⟩ :=
  ⟨⟨by decide,
    (delete_record_spec (fun s => s) none (some "A") none none
      [("a", "x", "y"), ("txt", "z", "w")]).1 (by decide)⟩,
   (delete_record_spec (fun s => s) none (some "a") none none
      [("txt", "x", "y")]).2.1 (by decide)⟩

/-! ### Claim C10: update without an identifier locates by type and name -/

/-- Claim C10 holds: when update is called without an identifier, the
replaced position is the first index whose record matches the given type
case-insensitively and the relative name exactly; the content argument
appears only in the stored replacement record, never in the location
predicate. -/
theorem update_locates_by_type_and_name (base : String → String)
    (rtype name content : String) (records : List DnsRecord)
    (ht : rtype ≠ "") (hn : name ≠ "") (hc : content ≠ "") :
    updateRecord base none (some rtype) (some name) (some content) records =
      Except.ok
        ⟨match records.findIdx?
            (fun r => strLower r.1 == strLower rtype && r.2.1 == relativeName base name) with
          | some i => records.set i
              (strLower rtype, relativeName base name, bindFormatTarget (some rtype) content)
          | none => records ++
              [(strLower rtype, relativeName base name, bindFormatTarget (some rtype) content)],
          true, true⟩ := by
  have hg : (truthy (some rtype) && truthy (some name) && truthy (some content)) = true := by
    simp [truthy, ht, hn, hc]
  have hpred : matchesFindFull none (some rtype) (some (relativeName base name)) none =
      (fun r : DnsRecord => strLower r.1 == strLower rtype && r.2.1 == relativeName base name) := by
    funext r
    rw [matchesFindFull_none, matchesFind_type_name ht (relativeName_ne_empty base name)]
  unfold updateRecord
  rw [if_neg (by simp [hg])]
  simp only [Option.getD_some]
  rw [findResourceRecordSet_eq, hpred]
  cases hj : records.findIdx?
      (fun r : DnsRecord => strLower r.1 == strLower rtype && r.2.1 == relativeName base name) with
  | some j => simp
  | none => simp

/-- Witness for C10: the first type-and-name match (index 1) is replaced
even though its existing content differs from the content argument. -/
theorem update_locates_by_type_and_name_witness :
    ("A" ≠ "" ∧ "www" ≠ "" ∧ "9.9.9.9" ≠ "") ∧
    updateRecord (fun s => s) none (some "A") (some "www") (some "9.9.9.9")
        [("txt", "x", "y"), ("a", "www", "1.1.1.1")] =
      Except.ok ⟨[("txt", "x", "y"), ("a", "www", "9.9.9.9")], true, true⟩ :=
  ⟨⟨by decide, by decide, by decide⟩, by
    rw [update_locates_by_type_and_name (fun s => s) "A" "www" "9.9.9.9"
        [("txt", "x", "y"), ("a", "www", "1.1.1.1")] (by decide) (by decide) (by decide)]
    rfl⟩

end ValueDomain

